import Mathlib

/-!
Verification of the transdict bidirectional transforming view.

The view semantics (`Transdict` / `MutableTransdict` and their mapping
operations) live in the `transdict` module, which is not part of the
source tree here; they are modelled from the spec.  The example transform
bundles (`Headers`, `MutableHeaders`,
`MappingViewWithCaseInsensitiveKeyLookup`) and the example dictionaries
are translated from `src/example.py`.

Python strings are embedded as lists of Unicode codepoints (`PyStr`);
`str.upper` / `str.casefold` are modelled on the ASCII range, which covers
every string the repository manipulates.  A Python `dict` is embedded as
an association list in insertion order with unique keys; a view holds no
state of its own, so its operations take the underlying mapping's current
contents as an explicit argument (the live, uncached reference of the
source becomes state passing).
-/

/-- A Python string as its list of Unicode codepoints. -/
abbrev PyStr := List Nat

/-- Codepoints of a Lean string literal, used to write `PyStr` constants. -/
def str (s : String) : PyStr := s.data.map Char.toNat

/-- ASCII lowering of one codepoint: models `str.casefold` / `str.lower`
per character on the ASCII inputs used by the repository. -/
def pyLowerCp (c : Nat) : Nat := if 65 ≤ c ∧ c ≤ 90 then c + 32 else c

/-- ASCII raising of one codepoint: models `str.upper` per character on
the ASCII inputs used by the repository. -/
def pyUpperCp (c : Nat) : Nat := if 97 ≤ c ∧ c ≤ 122 then c - 32 else c

/-- Models Python `x.casefold()` on ASCII strings. -/
def pyCasefold (s : PyStr) : PyStr := s.map pyLowerCp

/-- Models Python `x.upper()` on ASCII strings. -/
def pyUpper (s : PyStr) : PyStr := s.map pyUpperCp

/-- Models Python `x.replace(a, b)` for single-character `a`, `b`
(the only form the repository uses). -/
def pyReplace (s : PyStr) (a b : Nat) : PyStr :=
  s.map (fun c => if c = a then b else c)

/-- Codepoint of the hyphen character. -/
def hyphenCp : Nat := 45

/-- Codepoint of the underscore character. -/
def underscoreCp : Nat := 95

/-- Python `dict` lookup `m[k]` on an insertion-ordered association list
with unique keys, returning `none` when the key is absent. -/
def lookupM {K V : Type} [DecidableEq K] (m : List (K × V)) (k : K) : Option V :=
  match m with
  | [] => none
  | (k₀, v₀) :: rest => if k₀ = k then some v₀ else lookupM rest k

/-- Python `dict` insert-or-overwrite `m[k] = v`: an existing key keeps its
position and gets the new value; a new key is appended at the end. -/
def setM {K V : Type} [DecidableEq K] (m : List (K × V)) (k : K) (v : V) :
    List (K × V) :=
  match m with
  | [] => [(k, v)]
  | (k₀, v₀) :: rest => if k₀ = k then (k₀, v) :: rest else (k₀, v₀) :: setM rest k v

/-- Python `del m[k]`: removes the entry with key `k`, leaving the rest in
place. -/
def delM {K V : Type} [DecidableEq K] (m : List (K × V)) (k : K) : List (K × V) :=
  match m with
  | [] => []
  | (k₀, v₀) :: rest => if k₀ = k then rest else (k₀, v₀) :: delM rest k

/-- The underlying mapping has pairwise distinct keys, as a Python `dict`
always does. -/
abbrev keysNodup {K V : Type} (m : List (K × V)) : Prop := (m.map Prod.fst).Nodup

/-- Modelled from the spec: the read-only transforming view's transform
bundle (`transdict.Transdict`, absent from the source tree).  `toKey` is
the backward key transform (view key to source key), `fromKey` the forward
key transform (source key to view key), `fromValue` the forward value
transform.  A transform signals "not representable" by returning `none`
(the source signals by raising `KeyError`); the value transforms the
repository uses are total. -/
structure Transdict (K V K' V' : Type) where
  toKey : K' → Option K
  fromKey : K → Option K'
  fromValue : V → V'

/-- Modelled from the spec: the result of the strict lookup
`view[viewKey]`, which signals a `KeyNotFound` error instead of returning
the absent-marker. -/
inductive LookupResult (V' : Type) where
  | found (v : V') : LookupResult V'
  | keyNotFound : LookupResult V'
  deriving DecidableEq

/-- Modelled from the spec: `get(viewKey)`.  Compute
`sourceKey = backwardKey(viewKey)`; on translation failure return the
absent-marker (`none`); otherwise look the source key up in the underlying
mapping; if absent return the absent-marker, else return
`forwardValue(sourceValue)`. -/
def Transdict.get {K V K' V' : Type} [DecidableEq K]
    (t : Transdict K V K' V') (m : List (K × V)) (k' : K') : Option V' :=
  match t.toKey k' with
  | none => none
  | some k =>
    match lookupM m k with
    | none => none
    | some v => some (t.fromValue v)

/-- Modelled from the spec: strict lookup `view[viewKey]`, as `get` but
signalling "key not found" instead of returning the absent-marker. -/
def Transdict.getitem {K V K' V' : Type} [DecidableEq K]
    (t : Transdict K V K' V') (m : List (K × V)) (k' : K') : LookupResult V' :=
  match t.get m k' with
  | none => LookupResult.keyNotFound
  | some v => LookupResult.found v

/-- Modelled from the spec: `contains(viewKey)`, true iff
`backwardKey(viewKey)` succeeds and the resulting source key is present in
the underlying mapping. -/
def Transdict.contains {K V K' V' : Type} [DecidableEq K]
    (t : Transdict K V K' V') (m : List (K × V)) (k' : K') : Bool :=
  match t.toKey k' with
  | none => false
  | some k => (lookupM m k).isSome

/-- Modelled from the spec: `keys()` traverses the underlying mapping's
current contents in order, yielding `forwardKey(k)` for each entry whose
key it accepts and skipping entries on which it signals failure. -/
def Transdict.keys {K V K' V' : Type}
    (t : Transdict K V K' V') (m : List (K × V)) : List K' :=
  m.filterMap (fun kv => t.fromKey kv.1)

/-- Modelled from the spec: `values()`, the same traversal yielding
`forwardValue(v)` for each visible entry. -/
def Transdict.values {K V K' V' : Type}
    (t : Transdict K V K' V') (m : List (K × V)) : List V' :=
  m.filterMap (fun kv => (t.fromKey kv.1).map (fun _ => t.fromValue kv.2))

/-- Modelled from the spec: `items()`, the same traversal yielding
`(forwardKey(k), forwardValue(v))` for each visible entry. -/
def Transdict.items {K V K' V' : Type}
    (t : Transdict K V K' V') (m : List (K × V)) : List (K' × V') :=
  m.filterMap (fun kv => (t.fromKey kv.1).map (fun k' => (k', t.fromValue kv.2)))

/-- Modelled from the spec: the mutable view's transform bundle
(`transdict.MutableTransdict`), extending the read-only one with the
backward value transform `toValue`. -/
structure MutableTransdict (K V K' V' : Type) extends Transdict K V K' V' where
  toValue : V' → V

/-- Read operations are inherited unchanged by the mutable view. -/
def MutableTransdict.get {K V K' V' : Type} [DecidableEq K]
    (t : MutableTransdict K V K' V') (m : List (K × V)) (k' : K') : Option V' :=
  t.toTransdict.get m k'

/-- Modelled from the spec: `set(viewKey, value)`.  Compute
`sourceKey = backwardKey(viewKey)`, signalling failure (`none`) if not
representable; otherwise insert or overwrite
`(sourceKey, backwardValue(value))` in the underlying mapping and return
the updated mapping (write-through). -/
def MutableTransdict.set {K V K' V' : Type} [DecidableEq K]
    (t : MutableTransdict K V K' V') (m : List (K × V)) (k' : K') (v' : V') :
    Option (List (K × V)) :=
  match t.toKey k' with
  | none => none
  | some k => some (setM m k (t.toValue v'))

/-- Modelled from the spec: `delete(viewKey)`.  Compute
`sourceKey = backwardKey(viewKey)`; if translation fails or the source key
is absent, signal "key not found" (`none`); otherwise remove the entry and
return the updated mapping. -/
def MutableTransdict.delete {K V K' V' : Type} [DecidableEq K]
    (t : MutableTransdict K V K' V') (m : List (K × V)) (k' : K') :
    Option (List (K × V)) :=
  match t.toKey k' with
  | none => none
  | some k =>
    match lookupM m k with
    | none => none
    | some _ => some (delM m k)

/-- The `HTTP_` source-key marker of the headers example. -/
def strHTTP : PyStr := str ("HTTP_")

/-- The `Headers` view of `src/example.py`: `toKey` maps a view key back
to the original dict (`'HTTP_' + x.upper().replace('-', '_')`); `fromKey`
rejects source keys that do not start with `HTTP_` and otherwise returns
`x[5:].casefold().replace('_', '-')`; `fromValue` is the identity. -/
def Headers : Transdict PyStr PyStr PyStr PyStr where
  toKey := fun x => some (strHTTP ++ pyReplace (pyUpper x) hyphenCp underscoreCp)
  fromKey := fun x =>
    if strHTTP.isPrefixOf x then
      some (pyReplace (pyCasefold (x.drop 5)) underscoreCp hyphenCp)
    else none
  fromValue := id

/-- The `MutableHeaders` view of `src/example.py`: the same key transforms
as `Headers`, with `toValue` and `fromValue` left as the identity. -/
def MutableHeaders : MutableTransdict PyStr PyStr PyStr PyStr where
  toKey := fun x => some (strHTTP ++ pyReplace (pyUpper x) hyphenCp underscoreCp)
  fromKey := fun x =>
    if strHTTP.isPrefixOf x then
      some (pyReplace (pyCasefold (x.drop 5)) underscoreCp hyphenCp)
    else none
  fromValue := id
  toValue := id

/-- The `MappingViewWithCaseInsensitiveKeyLookup` view of
`src/example.py`: `toKey` is `x.casefold()`; `fromKey` accepts exactly the
keys already equal to their casefold and returns them unchanged. -/
def MappingViewWithCaseInsensitiveKeyLookup : Transdict PyStr PyStr PyStr PyStr where
  toKey := fun x => some (pyCasefold x)
  fromKey := fun x => if x = pyCasefold x then some x else none
  fromValue := id

/-- Short name for the case-insensitive example view (`f` of the source is
this view bound to the dict `d`). -/
def caseView : Transdict PyStr PyStr PyStr PyStr :=
  MappingViewWithCaseInsensitiveKeyLookup

/-- The WSGI-style headers dict of `src/example.py`. -/
def example_headers : List (PyStr × PyStr) :=
  [(str ("HTTP_USER_AGENT"), str ("Example User Agent")),
   (str ("HTTP_FOO_BAR"), str ("Example value")),
   (str ("wsgi.not_important"), str ("A value you don\x27t care about"))]

/-- The plain dict `d` of the case-insensitive example. -/
def d : List (PyStr × PyStr) :=
  [(str ("animal"), str ("cat")),
   (str ("colour"), str ("red")),
   (str ("city"), str ("Swansea")),
   (str ("IGNORED"), str ("Key not casefolded"))]

/-! ### Laws of the underlying mapping operations -/

theorem lookupM_eq_none_of_not_mem {K V : Type} [DecidableEq K]
    (m : List (K × V)) (k : K) (h : k ∉ m.map Prod.fst) : lookupM m k = none := by
  induction m with
  | nil => rfl
  | cons kv rest ih =>
    obtain ⟨k₀, v₀⟩ := kv
    simp only [List.map_cons, List.mem_cons] at h
    push_neg at h
    simp only [lookupM]
    rw [if_neg (fun hEq => h.1 hEq.symm)]
    exact ih h.2

theorem lookupM_setM_self {K V : Type} [DecidableEq K]
    (m : List (K × V)) (k : K) (v : V) : lookupM (setM m k v) k = some v := by
  induction m with
  | nil => simp [setM, lookupM]
  | cons kv rest ih =>
    obtain ⟨k₀, v₀⟩ := kv
    by_cases h : k₀ = k
    · simp [setM, lookupM, h]
    · simp [setM, lookupM, h, ih]

theorem lookupM_setM_ne {K V : Type} [DecidableEq K]
    (m : List (K × V)) (k k₀ : K) (v : V) (h : k₀ ≠ k) :
    lookupM (setM m k v) k₀ = lookupM m k₀ := by
  have h' : ¬(k = k₀) := fun hEq => h hEq.symm
  induction m with
  | nil => simp [setM, lookupM, h']
  | cons kv rest ih =>
    obtain ⟨k₁, v₁⟩ := kv
    by_cases h1 : k₁ = k
    · subst h1
      simp [setM, lookupM, h']
    · by_cases h2 : k₁ = k₀ <;> simp [setM, lookupM, h1, h2, h, h', ih]

theorem lookupM_delM_self {K V : Type} [DecidableEq K]
    (m : List (K × V)) (k : K) (hnd : keysNodup m) :
    lookupM (delM m k) k = none := by
  induction m with
  | nil => rfl
  | cons kv rest ih =>
    obtain ⟨k₀, v₀⟩ := kv
    simp only [keysNodup, List.map_cons, List.nodup_cons] at hnd
    by_cases h : k₀ = k
    · subst h
      simp only [delM, if_pos rfl]
      exact lookupM_eq_none_of_not_mem rest k₀ hnd.1
    · simp [delM, lookupM, h, ih hnd.2]

theorem lookupM_delM_ne {K V : Type} [DecidableEq K]
    (m : List (K × V)) (k k₀ : K) (h : k₀ ≠ k) :
    lookupM (delM m k) k₀ = lookupM m k₀ := by
  have h' : ¬(k = k₀) := fun hEq => h hEq.symm
  induction m with
  | nil => rfl
  | cons kv rest ih =>
    obtain ⟨k₁, v₁⟩ := kv
    by_cases h1 : k₁ = k
    · subst h1
      simp [delM, lookupM, h']
    · by_cases h2 : k₁ = k₀ <;> simp [delM, lookupM, h1, h2, h, h', ih]

theorem setM_map_fst {K V : Type} [DecidableEq K]
    (m : List (K × V)) (k : K) (v : V) :
    (setM m k v).map Prod.fst = m.map Prod.fst ∨
    (setM m k v).map Prod.fst = m.map Prod.fst ++ [k] := by
  induction m with
  | nil => right; rfl
  | cons kv rest ih =>
    obtain ⟨k₀, v₀⟩ := kv
    by_cases h : k₀ = k
    · left; simp [setM, h]
    · rcases ih with ih | ih
      · left; simp [setM, h, ih]
      · right; simp [setM, h, ih]

/-! ### The claims -/

/-- C1: for every view key, `get` returns the absent-marker when backward
key translation fails; otherwise, when the translated source key is absent
from the underlying mapping, it returns the absent-marker; otherwise it
returns `forwardValue` of the stored source value. -/
theorem get_spec {K V K' V' : Type} [DecidableEq K]
    (t : Transdict K V K' V') (m : List (K × V)) (k' : K') :
    (t.toKey k' = none → t.get m k' = none) ∧
    (∀ k, t.toKey k' = some k → lookupM m k = none → t.get m k' = none) ∧
    (∀ k v, t.toKey k' = some k → lookupM m k = some v →
      t.get m k' = some (t.fromValue v)) := by
  refine ⟨fun h => ?_, fun k hk hl => ?_, fun k v hk hl => ?_⟩ <;>
    simp [Transdict.get, *]

/-- C1 witness: in the case-insensitive example, `get('Animal')` returns
`'cat'` while `'animal'` is stored in the underlying dict. -/
theorem get_spec_w : caseView.get d (str ("Animal")) = some (str ("cat")) :=
  (get_spec caseView d (str ("Animal"))).2.2 (str ("animal")) (str ("cat"))
    (by decide) (by decide)

/-- C4: `contains` is true iff backward translation succeeds and the
resulting source key is present in the underlying mapping; a translation
failure or a missing source key each yield `false`. -/
theorem contains_spec {K V K' V' : Type} [DecidableEq K]
    (t : Transdict K V K' V') (m : List (K × V)) (k' : K') :
    (t.toKey k' = none → t.contains m k' = false) ∧
    (∀ k, t.toKey k' = some k → lookupM m k = none → t.contains m k' = false) ∧
    (t.contains m k' = true ↔
      ∃ k, t.toKey k' = some k ∧ (lookupM m k).isSome = true) := by
  refine ⟨fun h => by simp [Transdict.contains, h],
    fun k hk hl => by simp [Transdict.contains, hk, hl], ?_⟩
  cases htk : t.toKey k' with
  | none => simp [Transdict.contains, htk]
  | some k => simp [Transdict.contains, htk]

/-- C4 witness: `'aNiMaL' in f` is true in the case-insensitive example. -/
theorem contains_spec_w : caseView.contains d (str ("aNiMaL")) = true :=
  (contains_spec caseView d (str ("aNiMaL"))).2.2.mpr
    ⟨str ("animal"), by decide, by decide⟩

/-- C3: an entry whose key makes `forwardKey` signal non-representability
is skipped by the `keys`/`values`/`items` traversals wherever it sits in
the underlying mapping, contributing nothing to their output (and the
traversals stay total, so no signal escapes); an entry whose key
`forwardKey` accepts contributes exactly its translated key/value at its
position. -/
theorem traversal_filtering {K V K' V' : Type}
    (t : Transdict K V K' V') (m₁ m₂ : List (K × V)) (k : K) (v : V) :
    (t.fromKey k = none →
      (t.keys (m₁ ++ (k, v) :: m₂) = t.keys (m₁ ++ m₂) ∧
       t.values (m₁ ++ (k, v) :: m₂) = t.values (m₁ ++ m₂) ∧
       t.items (m₁ ++ (k, v) :: m₂) = t.items (m₁ ++ m₂))) ∧
    (∀ k', t.fromKey k = some k' →
      (t.keys (m₁ ++ (k, v) :: m₂) = t.keys m₁ ++ k' :: t.keys m₂ ∧
       t.values (m₁ ++ (k, v) :: m₂) = t.values m₁ ++ t.fromValue v :: t.values m₂ ∧
       t.items (m₁ ++ (k, v) :: m₂) =
         t.items m₁ ++ (k', t.fromValue v) :: t.items m₂)) := by
  constructor
  · intro h
    refine ⟨?_, ?_, ?_⟩ <;>
      simp [Transdict.keys, Transdict.values, Transdict.items,
        List.filterMap_append, List.filterMap_cons, h]
  · intro k' h
    refine ⟨?_, ?_, ?_⟩ <;>
      simp [Transdict.keys, Transdict.values, Transdict.items,
        List.filterMap_append, List.filterMap_cons, h]

/-- C3 witness: `items()` of the headers view skips the
`wsgi.not_important` entry of the underlying dict. -/
theorem traversal_filtering_w :
    Headers.items
      ([(str ("HTTP_USER_AGENT"), str ("Example User Agent")),
        (str ("HTTP_FOO_BAR"), str ("Example value"))] ++
       (str ("wsgi.not_important"), str ("A value you don\x27t care about")) :: []) =
    Headers.items
      ([(str ("HTTP_USER_AGENT"), str ("Example User Agent")),
        (str ("HTTP_FOO_BAR"), str ("Example value"))] ++ []) :=
  ((traversal_filtering Headers
      [(str ("HTTP_USER_AGENT"), str ("Example User Agent")),
       (str ("HTTP_FOO_BAR"), str ("Example value"))] []
      (str ("wsgi.not_important"))
      (str ("A value you don\x27t care about"))).1 (by decide)).2.2

theorem filterMap_singleton_toList {α β : Type} (f : α → Option β) (a : α) :
    [a].filterMap f = (f a).toList := by
  cases h : f a <;> simp [List.filterMap_cons, h]

theorem filterMap_eq_flatMap {α β : Type} (f : α → Option β) (l : List α) :
    l.filterMap f = l.flatMap (fun a => [a].filterMap f) := by
  induction l with
  | nil => rfl
  | cons a l ih =>
    cases h : f a <;>
      simp [List.filterMap_cons, filterMap_singleton_toList, h, ih]

/-- C5: each traversal's output is the concatenation, in the underlying
mapping's own iteration order, of each entry's individual translation
(empty exactly when the entry is invisible), so the view performs no
reordering; in particular the view keys are the forward-translations of
the underlying key sequence in order. -/
theorem traversal_order {K V K' V' : Type}
    (t : Transdict K V K' V') (m : List (K × V)) :
    t.keys m = m.flatMap (fun kv => t.keys [kv]) ∧
    t.values m = m.flatMap (fun kv => t.values [kv]) ∧
    t.items m = m.flatMap (fun kv => t.items [kv]) ∧
    t.keys m = (m.map Prod.fst).filterMap t.fromKey := by
  refine ⟨filterMap_eq_flatMap _ m, filterMap_eq_flatMap _ m,
    filterMap_eq_flatMap _ m, ?_⟩
  simp only [Transdict.keys, List.filterMap_map]
  rfl

/-- C6: `delete` signals "key not found" when backward translation fails
or when the translated source key is absent; otherwise it removes exactly
that entry (the deleted key no longer resolves, every other key still
resolves to its previous value). -/
theorem delete_spec {K V K' V' : Type} [DecidableEq K]
    (t : MutableTransdict K V K' V') (m : List (K × V)) (k' : K')
    (hnd : keysNodup m) :
    (t.toKey k' = none → t.delete m k' = none) ∧
    (∀ k, t.toKey k' = some k → lookupM m k = none → t.delete m k' = none) ∧
    (∀ k, t.toKey k' = some k → (lookupM m k).isSome = true →
      t.delete m k' = some (delM m k) ∧
      lookupM (delM m k) k = none ∧
      ∀ k₀, k₀ ≠ k → lookupM (delM m k) k₀ = lookupM m k₀) := by
  refine ⟨fun h => by simp [MutableTransdict.delete, h],
    fun k hk hl => by simp [MutableTransdict.delete, hk, hl],
    fun k hk hl => ?_⟩
  obtain ⟨v, hv⟩ := Option.isSome_iff_exists.mp hl
  exact ⟨by simp [MutableTransdict.delete, hk, hv],
    lookupM_delM_self m k hnd,
    fun k₀ h₀ => lookupM_delM_ne m k k₀ h₀⟩

/-- C6 witness: deleting `'user-agent'` through the mutable headers view
removes `HTTP_USER_AGENT` from the underlying dict. -/
theorem delete_spec_w :
    MutableHeaders.delete example_headers (str ("user-agent")) =
      some (delM example_headers (str ("HTTP_USER_AGENT"))) ∧
    lookupM (delM example_headers (str ("HTTP_USER_AGENT")))
      (str ("HTTP_USER_AGENT")) = none := by
  have h := (delete_spec MutableHeaders example_headers (str ("user-agent"))
    (by decide)).2.2 (str ("HTTP_USER_AGENT")) (by decide) (by decide)
  exact ⟨h.1, h.2.1⟩

/-- C7: the view holds no cache, so a mutation of the underlying mapping
is observable through the very next view operation on the same view:
after deleting the translated source key, `contains` is false and `get`
returns the absent-marker; after inserting a source value at it, `get`
returns its forward translation. -/
theorem live_reflection {K V K' V' : Type} [DecidableEq K]
    (t : Transdict K V K' V') (m : List (K × V)) (k : K) (k' : K') (v : V)
    (hk : t.toKey k' = some k) (hnd : keysNodup m) :
    t.contains (delM m k) k' = false ∧
    t.get (delM m k) k' = none ∧
    t.get (setM m k v) k' = some (t.fromValue v) ∧
    t.contains (setM m k v) k' = true := by
  refine ⟨?_, ?_, ?_, ?_⟩ <;>
    simp [Transdict.contains, Transdict.get, hk,
      lookupM_delM_self m k hnd, lookupM_setM_self m k v]

/-- C7 witness: after `del d['animal']` on the underlying dict,
`'aNiMaL' in f` is false and `f.get('Animal')` is the absent-marker on the
pre-existing view. -/
theorem live_reflection_w :
    caseView.contains (delM d (str ("animal"))) (str ("aNiMaL")) = false ∧
    caseView.get (delM d (str ("animal"))) (str ("aNiMaL")) = none ∧
    caseView.get (setM d (str ("animal")) (str ("dog"))) (str ("aNiMaL")) =
      some (caseView.fromValue (str ("dog"))) ∧
    caseView.contains (setM d (str ("animal")) (str ("dog"))) (str ("aNiMaL")) = true :=
  live_reflection caseView d (str ("animal")) (str ("aNiMaL")) (str ("dog"))
    (by decide) (by decide)

/-- C9: view keys are compared only through their backward translation:
two view keys whose backward translations both succeed with the same
source key get identical results from `get`, strict lookup and
`contains`. -/
theorem key_normalization {K V K' V' : Type} [DecidableEq K]
    (t : Transdict K V K' V') (m : List (K × V)) (k : K) (k₁ k₂ : K')
    (h1 : t.toKey k₁ = some k) (h2 : t.toKey k₂ = some k) :
    t.get m k₁ = t.get m k₂ ∧
    t.getitem m k₁ = t.getitem m k₂ ∧
    t.contains m k₁ = t.contains m k₂ := by
  refine ⟨?_, ?_, ?_⟩ <;>
    simp [Transdict.get, Transdict.getitem, Transdict.contains, h1, h2]

/-- C9 witness: `'Animal'` and `'aNiMaL'` are interchangeable for lookup
in the case-insensitive view. -/
theorem key_normalization_w :
    caseView.get d (str ("Animal")) = caseView.get d (str ("aNiMaL")) ∧
    caseView.getitem d (str ("Animal")) = caseView.getitem d (str ("aNiMaL")) ∧
    caseView.contains d (str ("Animal")) = caseView.contains d (str ("aNiMaL")) :=
  key_normalization caseView d (str ("animal")) (str ("Animal")) (str ("aNiMaL"))
    (by decide) (by decide)

/-- C10: `set` changes the underlying mapping at most at the translated
source key: every other key still resolves to its previous value, and the
underlying key sequence is either unchanged or extended by exactly the new
key at the end. -/
theorem set_frame {K V K' V' : Type} [DecidableEq K]
    (t : MutableTransdict K V K' V') (m : List (K × V)) (k : K) (k' : K') (v' : V')
    (hk : t.toKey k' = some k) :
    t.set m k' v' = some (setM m k (t.toValue v')) ∧
    (∀ k₀, k₀ ≠ k → lookupM (setM m k (t.toValue v')) k₀ = lookupM m k₀) ∧
    ((setM m k (t.toValue v')).map Prod.fst = m.map Prod.fst ∨
     (setM m k (t.toValue v')).map Prod.fst = m.map Prod.fst ++ [k]) :=
  ⟨by simp [MutableTransdict.set, hk],
   fun k₀ h₀ => lookupM_setM_ne m k k₀ (t.toValue v') h₀,
   setM_map_fst m k (t.toValue v')⟩

/-- C10 witness: writing `'referer'` through the mutable headers view
leaves the invisible `wsgi.not_important` entry untouched. -/
theorem set_frame_w :
    MutableHeaders.set example_headers (str ("referer"))
      (str ("https://example.org/")) =
      some (setM example_headers (str ("HTTP_REFERER"))
        (str ("https://example.org/"))) ∧
    lookupM (setM example_headers (str ("HTTP_REFERER"))
        (str ("https://example.org/"))) (str ("wsgi.not_important")) =
      lookupM example_headers (str ("wsgi.not_important")) := by
  have h := set_frame MutableHeaders example_headers (str ("HTTP_REFERER"))
    (str ("referer")) (str ("https://example.org/")) (by decide)
  exact ⟨h.1, h.2.1 (str ("wsgi.not_important")) (by decide)⟩

/-- A transform bundle that is admissible under the spec's interface
contract (every transform is a total-or-failing function) but whose value
transforms are not mutually inverse; it witnesses that the write-through
claim cannot hold for every mutable view. -/
def skewView : MutableTransdict PyStr PyStr PyStr PyStr where
  toKey := fun k => some k
  fromKey := fun k => some k
  fromValue := fun _ => str ("x")
  toValue := id

/-- C2 counterexample: for the admissible mutable view `skewView`,
`backwardKey('k')` succeeds and after `set('k', 'v')` the underlying
mapping contains the translated entry, yet looking `'k'` up through the
view returns `'x'`, not the stored value `'v'` — the claim's "looking up k
through the view returns v" fails as stated for this view. -/
theorem set_write_through_cex :
    skewView.toKey (str ("k")) = some (str ("k")) ∧
    skewView.set [] (str ("k")) (str ("v")) =
      some [(str ("k"), str ("v"))] ∧
    skewView.get [(str ("k"), str ("v"))] (str ("k")) = some (str ("x")) ∧
    str ("x") ≠ str ("v") := by
  refine ⟨rfl, rfl, rfl, by decide⟩

/-- C2 (amended): for every mutable view, view key and value such that
backward key translation succeeds, `set` writes
`(backwardKey(viewKey), backwardValue(value))` through to the underlying
mapping immediately, and looking the view key up through the view returns
the written value whenever `forwardValue` inverts `backwardValue` on it
(as with the identity value transforms of `MutableHeaders`). -/
theorem set_write_through {K V K' V' : Type} [DecidableEq K]
    (t : MutableTransdict K V K' V') (m : List (K × V)) (k : K) (k' : K') (v' : V')
    (hk : t.toKey k' = some k) (hv : t.fromValue (t.toValue v') = v') :
    t.set m k' v' = some (setM m k (t.toValue v')) ∧
    lookupM (setM m k (t.toValue v')) k = some (t.toValue v') ∧
    t.get (setM m k (t.toValue v')) k' = some v' := by
  refine ⟨by simp [MutableTransdict.set, hk], lookupM_setM_self m k (t.toValue v'), ?_⟩
  simp [MutableTransdict.get, Transdict.get, hk,
    lookupM_setM_self m k (t.toValue v'), hv]

/-- C2 witness: after `mutable_headers_view['referer'] = 'https://example.org/'`
the underlying dict contains `HTTP_REFERER` and the view returns the new
value for `'referer'`. -/
theorem set_write_through_w :
    MutableHeaders.set example_headers (str ("referer"))
      (str ("https://example.org/")) =
      some (setM example_headers (str ("HTTP_REFERER"))
        (str ("https://example.org/"))) ∧
    lookupM (setM example_headers (str ("HTTP_REFERER"))
        (str ("https://example.org/"))) (str ("HTTP_REFERER")) =
      some (str ("https://example.org/")) ∧
    MutableHeaders.get (setM example_headers (str ("HTTP_REFERER"))
        (str ("https://example.org/"))) (str ("referer")) =
      some (str ("https://example.org/")) :=
  set_write_through MutableHeaders example_headers (str ("HTTP_REFERER"))
    (str ("referer")) (str ("https://example.org/")) (by decide) (by decide)

/-- C8 counterexample: `'HTTP_a'` is visible (`fromKey` accepts every key
starting with `HTTP_`), yet `backwardKey(forwardKey('HTTP_a'))` is
`'HTTP_A'`, whose lookup misses the entry `'HTTP_a'` identified — so the
round-trip does not hold over every key accepted by `fromKey`. -/
theorem roundtrip_cex :
    Headers.fromKey (str ("HTTP_a")) = some (str ("a")) ∧
    Headers.toKey (str ("a")) = some (str ("HTTP_A")) ∧
    lookupM [(str ("HTTP_a"), str ("v"))] (str ("HTTP_a")) = some (str ("v")) ∧
    lookupM [(str ("HTTP_a"), str ("v"))] (str ("HTTP_A")) = none := by
  decide

theorem headers_tail_roundtrip (l : PyStr)
    (h : ∀ c ∈ l, c < 128 ∧ ¬(97 ≤ c ∧ c ≤ 122) ∧ c ≠ hyphenCp) :
    pyReplace (pyUpper (pyReplace (pyCasefold l) underscoreCp hyphenCp))
      hyphenCp underscoreCp = l := by
  simp only [pyCasefold, pyUpper, pyReplace, List.map_map]
  have hcong : ∀ c ∈ l,
      ((fun c => if c = hyphenCp then underscoreCp else c) ∘ pyUpperCp ∘
        (fun c => if c = underscoreCp then hyphenCp else c) ∘ pyLowerCp) c = c := by
    intro c hc
    obtain ⟨h0, h1, h2⟩ := h c hc
    simp only [Function.comp, pyLowerCp, pyUpperCp, hyphenCp, underscoreCp] at *
    split_ifs <;> omega
  rw [List.map_congr_left hcong]
  simp

/-- C8 (amended): the round-trip holds for every source key accepted by
`Headers.fromKey` whose part after `HTTP_` consists of ASCII characters
that are neither lowercase letters nor hyphens (the keys fixed by the
upper/lower and `_`/`-` translation, such as all keys of the WSGI
example; the ASCII bound keeps the statement within the range on which
the embedded `upper`/`casefold` agree with Python's): for those,
`backwardKey(forwardKey(k))` is `k` itself, so its lookup retrieves
exactly the entry `k` identified; for the case-insensitive view the
round-trip holds for every ASCII key its `fromKey` accepts. -/
theorem roundtrip_visible (k : PyStr)
    (h1 : strHTTP.isPrefixOf k = true)
    (h2 : ∀ c ∈ k.drop 5, c < 128 ∧ ¬(97 ≤ c ∧ c ≤ 122) ∧ c ≠ hyphenCp) :
    Headers.fromKey k =
      some (pyReplace (pyCasefold (k.drop 5)) underscoreCp hyphenCp) ∧
    Headers.toKey (pyReplace (pyCasefold (k.drop 5)) underscoreCp hyphenCp) =
      some k ∧
    (∀ (m : List (PyStr × PyStr)) v, lookupM m k = some v →
      Headers.get m (pyReplace (pyCasefold (k.drop 5)) underscoreCp hyphenCp) =
        some v) ∧
    (∀ x : PyStr, (∀ c ∈ x, c < 128) → x = pyCasefold x →
      caseView.fromKey x = some x ∧ caseView.toKey x = some x) := by
  have hfrom : Headers.fromKey k =
      some (pyReplace (pyCasefold (k.drop 5)) underscoreCp hyphenCp) := by
    show (if strHTTP.isPrefixOf k then
        some (pyReplace (pyCasefold (k.drop 5)) underscoreCp hyphenCp)
      else none) = _
    rw [h1]
    simp
  have hto : Headers.toKey
      (pyReplace (pyCasefold (k.drop 5)) underscoreCp hyphenCp) = some k := by
    obtain ⟨tl, htl⟩ := List.isPrefixOf_iff_prefix.mp h1
    subst htl
    have hdrop : (strHTTP ++ tl).drop 5 = tl := by
      rw [show (5 : Nat) = strHTTP.length from rfl, List.drop_left]
    rw [hdrop] at h2 ⊢
    show some (strHTTP ++
      pyReplace (pyUpper (pyReplace (pyCasefold tl) underscoreCp hyphenCp))
        hyphenCp underscoreCp) = _
    rw [headers_tail_roundtrip tl h2]
  refine ⟨hfrom, hto, fun m v hm => ?_, fun x _ hx => ?_⟩
  · show Transdict.get _ _ _ = _
    simp only [Transdict.get, hto, hm]
    rfl
  · constructor
    · show (if x = pyCasefold x then some x else none) = some x
      rw [if_pos hx]
    · show some (pyCasefold x) = some x
      rw [← hx]

/-- C8 witness: the WSGI key `HTTP_USER_AGENT` round-trips —
`backwardKey(forwardKey('HTTP_USER_AGENT'))` is `'HTTP_USER_AGENT'`
itself. -/
theorem roundtrip_visible_w :
    Headers.toKey
      (pyReplace (pyCasefold ((str ("HTTP_USER_AGENT")).drop 5))
        underscoreCp hyphenCp) = some (str ("HTTP_USER_AGENT")) :=
  (roundtrip_visible (str ("HTTP_USER_AGENT")) (by decide) (by decide)).2.1
